import Mathlib

/-!
Verification development for the ChemistryEquilibriumSimulator repository
(package escvv).  The Python source is shallowly embedded: machine floats
are modelled as rationals, numpy arrays as lists, raised exceptions and
numpy errors as `none` or `Except.error`, and the unbounded simulation
loop is given explicit fuel (`none` on exhaustion models nontermination).
All embedded definitions are translated from the source files
`escvv/state.py`, `escvv/equation/__init__.py`, `escvv/equation/helper.py`
and `escvv/system.py`; definitions whose doc comment starts with
`Modelled from the spec` follow the specification text instead and exist
only for comparison with the code.
-/

set_option maxRecDepth 8000

namespace ESCVV

/-- Embedding of `ESCState` (escvv/state.py): the phase tag. -/
inductive ESCState where
  | SOLID
  | LIQUID
  | GAS
  | AQUEOUS
deriving DecidableEq

/-- Embedding of `ESCState.index`: the stable ordinal used for masks. -/
def ESCState.index : ESCState → Nat
  | ESCState.SOLID => 0
  | ESCState.LIQUID => 1
  | ESCState.GAS => 2
  | ESCState.AQUEOUS => 3

/-- Python `str.isspace` restricted to the ASCII whitespace characters. -/
def pyIsSpace (c : Char) : Bool :=
  c = ' ' || c = '\t' || c = '\n' || c = '\r' || c = '\x0b' || c = '\x0c'

/-- Python `str.strip` on a character list. -/
def pyStrip (cs : List Char) : List Char :=
  ((cs.dropWhile pyIsSpace).reverse.dropWhile pyIsSpace).reverse

/-- Embedding of `_CharType` (escvv/equation/helper.py). -/
inductive CharType where
  | WORD
  | DECIMAL
  | DOT
  | PLUS
  | EQUAL
  | SPACE
  | OTHER
deriving DecidableEq

/-- Embedding of `_CharType._missing_`: classify one character.  The
source tests `isalpha or in '-()'`, then `isdecimal`, then `isspace`,
then the `_CHAR_TYPES` table; the inputs of interest are ASCII. -/
def charTypeOf (c : Char) : CharType :=
  if c.isAlpha || c = '-' || c = '(' || c = ')' then CharType.WORD
  else if c.isDigit then CharType.DECIMAL
  else if pyIsSpace c then CharType.SPACE
  else if c = '.' then CharType.DOT
  else if c = '+' then CharType.PLUS
  else if c = '=' then CharType.EQUAL
  else CharType.OTHER

/-- Embedding of `_TokenizerState`; `DECIMALU` is the source's
`DECIMAL_` auxiliary state. -/
inductive TKState where
  | NORMAL
  | WORD
  | DECIMAL
  | DECIMALU
  | DOT
  | PLUS
  | EQUAL
deriving DecidableEq

/-- Embedding of `_TOKENIZER_STATE_TABLE` / `_TokenizerState.next_state`:
absent table entries default to `NORMAL`. -/
def TKState.nextState (s : TKState) (c : Char) : TKState :=
  match s, charTypeOf c with
  | TKState.NORMAL, CharType.WORD => TKState.WORD
  | TKState.NORMAL, CharType.DECIMAL => TKState.DECIMAL
  | TKState.NORMAL, CharType.DOT => TKState.DOT
  | TKState.NORMAL, CharType.PLUS => TKState.PLUS
  | TKState.NORMAL, CharType.EQUAL => TKState.EQUAL
  | TKState.WORD, CharType.WORD => TKState.WORD
  | TKState.WORD, CharType.DECIMAL => TKState.WORD
  | TKState.WORD, CharType.DOT => TKState.WORD
  | TKState.DECIMAL, CharType.DECIMAL => TKState.DECIMAL
  | TKState.DECIMAL, CharType.DOT => TKState.DECIMALU
  | TKState.DECIMALU, CharType.DECIMAL => TKState.DECIMALU
  | TKState.EQUAL, CharType.EQUAL => TKState.EQUAL
  | _, _ => TKState.NORMAL

/-- Embedding of `_TokenizerState.get`: merge the auxiliary decimal
state back into `DECIMAL`. -/
def TKState.mergedState (s : TKState) : TKState :=
  if s = TKState.DECIMALU then TKState.DECIMAL else s

/-- One lexer token: its characters and the state it was reduced from. -/
abbrev Token := List Char × TKState

/-- Loop body of `_tokenize_origin`: walk the characters, extending the
current token while the automaton stays out of `NORMAL`, emitting the
stripped token on reduction.  Mirrors the three branches of the source
loop exactly. -/
def tkGo : List Char → TKState → List Char → List Token
  | [], _, _ => []
  | c :: rest, state, token =>
    let ns := state.nextState c
    if ns ≠ TKState.NORMAL then tkGo rest ns (token ++ [c])
    else if state ≠ TKState.NORMAL then
      (pyStrip token, state.mergedState) :: tkGo rest (TKState.NORMAL.nextState c) [c]
    else tkGo rest TKState.NORMAL token

/-- Embedding of `_tokenize_origin`: a trailing newline terminates the
final token.  The source's three `('', NORMAL)` terminator yields (and
the `endless` padding of `_tokenize`) are realised by reading past the
end of this list as the default token. -/
def tokenizeOrigin (s : List Char) : List Token :=
  tkGo (s ++ ['\n']) TKState.NORMAL []

/-- Pull one token from the stream, padding past the end with the
default `('', NORMAL)` token exactly like `utils.endless`. -/
def pullTok : List Token → Token × List Token
  | [] => (([], TKState.NORMAL), [])
  | t :: ts => (t, ts)

/-- Loop body of `_tokenize`: two-token lookahead folding of a `+` that
follows a WORD and is not followed by a WORD or DECIMAL into the
preceding WORD token.  Fuel bounds the pulls; it never runs out on a
stream produced by `tokenizeOrigin` because such a stream is finite and
padded with `NORMAL` tokens. -/
def foldPlusGo : Nat → Token → Token → Token → List Token → List Token
  | 0, _, _, _, _ => []
  | fuel + 1, t0, t1, t2, rest =>
    if t0.2 = TKState.NORMAL then []
    else if t0.2 = TKState.WORD ∧ t1.2 = TKState.PLUS ∧
        ¬(t2.2 = TKState.WORD ∨ t2.2 = TKState.DECIMAL) then
      let p := pullTok rest
      foldPlusGo fuel (t0.1 ++ ['+'], TKState.WORD) t2 p.1 p.2
    else
      let p := pullTok rest
      t0 :: foldPlusGo fuel t1 t2 p.1 p.2

/-- Embedding of `_tokenize`: prime the three-token window and fold. -/
def foldPlus (ts : List Token) : List Token :=
  let p0 := pullTok ts
  let p1 := pullTok p0.2
  let p2 := pullTok p1.2
  foldPlusGo (ts.length + 8) p0.1 p1.1 p2.1 p2.2

/-- Embedding of `_Tokenizer`: the fully lexed token list; `next` reads
at a cursor (padding past the end with the default token) and
`previous` moves the cursor back, so the parser below just tracks a
position. -/
structure Tk where
  toks : List Token

/-- Token at a cursor position, defaulting like the endless stream. -/
def Tk.tokAt (tk : Tk) (pos : Nat) : Token :=
  tk.toks.getD pos ([], TKState.NORMAL)

/-- One substance occurrence: name, coefficient, phase. -/
abbrev Mat := String × ℚ × ESCState

/-- Value of a run of decimal digits. -/
def digitsVal (cs : List Char) : Nat :=
  cs.foldl (fun a c => a * 10 + (c.toNat - 48)) 0

/-- Python `float(token)` for a DECIMAL token (digits, optionally one
dot and further digits), as an exact rational. -/
def parseDecimal (tok : List Char) : ℚ :=
  let intPart := tok.takeWhile (fun c => c ≠ '.')
  let fracPart := (tok.dropWhile (fun c => c ≠ '.')).drop 1
  (digitsVal intPart : ℚ) + (digitsVal fracPart : ℚ) / ((10 : ℚ) ^ fracPart.length)

/-- The phase-annotation suffix check of `name` in `_parse`: the regex
`^(.*)\((s|l|g|aq)\)$` with its greedy group, i.e. a trailing
`(s)`, `(l)`, `(g)` or `(aq)` is split off the final WORD slice. -/
def stripPhase (tok : List Char) : Option (List Char × ESCState) :=
  match tok.reverse with
  | ')' :: 'q' :: 'a' :: '(' :: rest => some (rest.reverse, ESCState.AQUEOUS)
  | ')' :: 's' :: '(' :: rest => some (rest.reverse, ESCState.SOLID)
  | ')' :: 'l' :: '(' :: rest => some (rest.reverse, ESCState.LIQUID)
  | ')' :: 'g' :: '(' :: rest => some (rest.reverse, ESCState.GAS)
  | _ => none

/-- The WORD-collecting loop of `name` in `_parse`: read WORD tokens,
pushing the first non-WORD token back (the cursor does not advance past
it).  Fuel is the remaining token count and cannot run out before a
non-WORD (default) token is seen. -/
def collectWords (tk : Tk) : Nat → Nat → List (List Char) → List (List Char) × Nat
  | 0, pos, acc => (acc.reverse, pos)
  | fuel + 1, pos, acc =>
    let t := tk.tokAt pos
    if t.2 = TKState.WORD then collectWords tk fuel (pos + 1) (t.1 :: acc)
    else (acc.reverse, pos)

/-- Embedding of the inner function `name` of `_parse`. -/
def nameP (tk : Tk) (dst : ESCState) (pos : Nat) :
    Except String ((String × ESCState) × Nat) :=
  let r := collectWords tk (tk.toks.length + 1) pos []
  match r.1.getLast? with
  | none => Except.error ("expect a name")
  | some last =>
    match stripPhase last with
    | some (base, st) =>
      let slices := if base = [] then r.1.dropLast else r.1.dropLast ++ [base]
      if slices = [] then Except.error ("expect a name")
      else Except.ok ((String.mk (List.intercalate ['_'] slices), st), r.2)
    | none => Except.ok ((String.mk (List.intercalate ['_'] r.1), dst), r.2)

/-- Embedding of the inner function `material` of `_parse`. -/
def materialP (tk : Tk) (ds : ℚ) (dst : ESCState) (pos : Nat) :
    Except String (Mat × Nat) :=
  let t := tk.tokAt pos
  if t.2 = TKState.DECIMAL then
    match nameP tk dst (pos + 1) with
    | Except.error m => Except.error m
    | Except.ok ((n, st), pos2) => Except.ok ((n, parseDecimal t.1, st), pos2)
  else
    match nameP tk dst pos with
    | Except.error m => Except.error m
    | Except.ok ((n, st), pos2) => Except.ok ((n, ds, st), pos2)

/-- Loop body of the inner function `substances` of `_parse`: materials
separated by PLUS tokens; the first non-PLUS token after a material is
pushed back. -/
def substancesGo (tk : Tk) (ds : ℚ) (dst : ESCState) :
    Nat → Nat → List Mat → Except String (List Mat × Nat)
  | 0, _, _ => Except.error ("out of fuel")
  | fuel + 1, pos, acc =>
    match materialP tk ds dst pos with
    | Except.error m => Except.error m
    | Except.ok (mat, pos2) =>
      if (tk.tokAt pos2).2 = TKState.PLUS then
        substancesGo tk ds dst fuel (pos2 + 1) (mat :: acc)
      else Except.ok ((mat :: acc).reverse, pos2)

/-- Embedding of the inner function `substances` of `_parse`. -/
def substancesP (tk : Tk) (ds : ℚ) (dst : ESCState) (pos : Nat) :
    Except String (List Mat × Nat) :=
  substancesGo tk ds dst (tk.toks.length + 1) pos []

/-- Embedding of `ESCEquation` (escvv/equation/__init__.py): the
substance dict as an insertion-ordered association list with unique
keys, and the standard equilibrium constant. -/
structure ESCEquation where
  substances : List Mat
  equilibrium_K : ℚ
deriving DecidableEq

/-- Python dict assignment `d[k] = v`: overwrite in place if the key is
present, else append. -/
def dictInsert (d : List Mat) (k : String) (v : ℚ × ESCState) : List Mat :=
  if d.any (fun p => p.1 = k) then
    d.map (fun p => if p.1 = k then (k, v.1, v.2) else p)
  else d ++ [(k, v.1, v.2)]

/-- Build a Python dict from entries in order (later entries
overwrite). -/
def pyDict (entries : List Mat) : List Mat :=
  entries.foldl (fun d p => dictInsert d p.1 (p.2.1, p.2.2)) []

/-- The final `ESCEquation({**sub1-dict, **sub2-negated-dict}, K)` of
`equation` in `_parse`: left-side materials keep their parsed
coefficient, right-side materials get theirs negated. -/
def buildSubstances (sub1 sub2 : List Mat) : List Mat :=
  pyDict (sub1 ++ sub2.map (fun m => (m.1, -m.2.1, m.2.2)))

/-- The optional `'K' '=' DECIMAL` tail of `equation` in `_parse`. -/
def kClauseP (tk : Tk) (pos : Nat) : Except String ℚ :=
  let t := tk.tokAt pos
  if t.2 = TKState.NORMAL then Except.ok 0
  else if t.2 = TKState.WORD ∧ t.1 = ['K'] then
    let t2 := tk.tokAt (pos + 1)
    if t2.2 = TKState.EQUAL ∧ t2.1 = ['='] then
      let t3 := tk.tokAt (pos + 2)
      if t3.2 = TKState.DECIMAL then Except.ok (parseDecimal t3.1)
      else Except.error ("expect a number")
    else Except.error ("expect =")
  else Except.error ("expect K")

/-- Embedding of the inner function `equation` of `_parse`. -/
def equationP (tk : Tk) (ds : ℚ) (dst : ESCState) : Except String ESCEquation :=
  match substancesP tk ds dst 0 with
  | Except.error m => Except.error m
  | Except.ok (sub1, pos1) =>
    if (tk.tokAt pos1).2 = TKState.EQUAL then
      match substancesP tk ds dst (pos1 + 1) with
      | Except.error m => Except.error m
      | Except.ok (sub2, pos2) =>
        match kClauseP tk pos2 with
        | Except.error m => Except.error m
        | Except.ok k => Except.ok ⟨buildSubstances sub1 sub2, k⟩
    else Except.error ("expect an equal")

/-- The lexed token stream of an input string. -/
def tkOf (s : String) : Tk :=
  ⟨foldPlus (tokenizeOrigin s.toList)⟩

/-- Embedding of `_parse` (escvv/equation/helper.py). -/
def parseRaw (s : String) (ds : ℚ) (dst : ESCState) : Except String ESCEquation :=
  equationP (tkOf s) ds dst

/-- Embedding of `parse_equation` with its default coefficient 1 and
default phase GAS. -/
def parse_equation (text : String) : Except String ESCEquation :=
  parseRaw text 1 ESCState.GAS

/-- The common shape of `ESCEquation.forward` and `ESCEquation.backward`
(escvv/equation/__init__.py): start from `np.zeros(count)` and, for each
substance whose coefficient satisfies the guard, write a value at the
substance's index. -/
def condSet (indexes : String → Nat) (P : Mat → Prop) [DecidablePred P]
    (v : Mat → ℚ) (init : List ℚ) (subs : List Mat) : List ℚ :=
  subs.foldl (fun acc p => if P p then acc.set (indexes p.1) (v p) else acc) init

/-- Embedding of `ESCEquation.forward`: coefficients of the
positive-coefficient substances, zero elsewhere. -/
def ESCEquation.forward (e : ESCEquation) (indexes : String → Nat) (count : Nat) :
    List ℚ :=
  condSet indexes (fun p => 0 < p.2.1) (fun p => p.2.1)
    (List.replicate count 0) e.substances

/-- Embedding of `ESCEquation.backward`: negated coefficients of the
negative-coefficient substances, zero elsewhere. -/
def ESCEquation.backward (e : ESCEquation) (indexes : String → Nat) (count : Nat) :
    List ℚ :=
  condSet indexes (fun p => p.2.1 < 0) (fun p => -p.2.1)
    (List.replicate count 0) e.substances

/-- Embedding of `ESCEquation.coefficient`: `forward - backward`
elementwise. -/
def ESCEquation.coefficient (e : ESCEquation) (indexes : String → Nat) (count : Nat) :
    List ℚ :=
  List.zipWith (fun a b => a - b) (e.forward indexes count) (e.backward indexes count)

/-- First index of a name in a list, matching the `_substances_index`
dict: names are inserted once, so the dict maps each name to its
insertion position. -/
def idxIn : List String → String → Option Nat
  | [], _ => none
  | x :: xs, n => if x = n then some 0 else (idxIn xs n).map (fun i => i + 1)

/-- Embedding of `ESCSystem` (escvv/system.py): parallel name, amount
and state arrays plus the equation list.  `_substances_index` is
derived from `names` via `idxIn`. -/
structure ESCSystem where
  names : List String
  amounts : List ℚ
  states : List ESCState
  equations : List ESCEquation
deriving DecidableEq

/-- Embedding of `ESCSystem.__setitem__`: overwrite the amount of a
known substance, or append a new substance with phase GAS. -/
def ESCSystem.setItem (s : ESCSystem) (name : String) (c : ℚ) : ESCSystem :=
  match idxIn s.names name with
  | some i => { s with amounts := s.amounts.set i c }
  | none =>
    { s with
      names := s.names ++ [name]
      amounts := s.amounts ++ [c]
      states := s.states ++ [ESCState.GAS] }

/-- Embedding of `ESCSystem._set_state`.  Python raises KeyError for an
unknown name; all call sites in the source only use known names, so
that branch is modelled as the identity. -/
def ESCSystem.setState (s : ESCSystem) (name : String) (st : ESCState) : ESCSystem :=
  match idxIn s.names name with
  | some i => { s with states := s.states.set i st }
  | none => s

/-- The per-substance body of the `add_equation` loop: add the name
with amount 0 if it is new, then set its state from the equation. -/
def addStep (acc : ESCSystem) (p : Mat) : ESCSystem :=
  (if (idxIn acc.names p.1).isSome then acc else acc.setItem p.1 0).setState
    p.1 p.2.2

/-- Embedding of `ESCSystem.add_equation`: append the equation, then
add each unknown substance with amount 0 and set every mentioned
substance's state from the equation. -/
def ESCSystem.add_equation (s : ESCSystem) (e : ESCEquation) : ESCSystem :=
  e.substances.foldl addStep { s with equations := s.equations ++ [e] }

/-- Embedding of `ESCSystem.__init__`: insert the initial substances in
order, then add the equations. -/
def mkSystem (substances : List (String × ℚ)) (equations : List ESCEquation) :
    ESCSystem :=
  let s1 := substances.foldl (fun s p => s.setItem p.1 p.2) ⟨[], [], [], []⟩
  equations.foldl (fun s e => s.add_equation e) s1

/-- Observation: the recorded phase of a substance, read through the
index map. -/
def ESCSystem.stateOf (s : ESCSystem) (n : String) : Option ESCState :=
  match idxIn s.names n with
  | some i => s.states[i]?
  | none => none

/-- Well-formedness maintained by the constructor and the mutators:
parallel arrays have equal length and names are unique. -/
def ESCSystem.WF (s : ESCSystem) : Prop :=
  s.amounts.length = s.names.length ∧ s.states.length = s.names.length ∧
    s.names.Nodup

/-- Embedding of `ESCSystem._states`: the stacked boolean masks, one
row per phase ordinal. -/
def ESCSystem.statesMask (s : ESCSystem) : List (List Bool) :=
  (List.range 4).map (fun k => s.states.map (fun st => st.index == k))

/-- The `not_have_volume` mask computed in `run`: SOLID row or AQUEOUS
row. -/
def ESCSystem.nhvOf (s : ESCSystem) : List Bool :=
  List.zipWith (fun a b => a || b) (s.statesMask.getD 0 []) (s.statesMask.getD 3 [])

/-- `np.place(arr, mask, v)` with a 1-D mask and a scalar value; numpy
raises ValueError when the mask size differs from the array size. -/
def npPlace (arr : List ℚ) (mask : List Bool) (v : ℚ) : Option (List ℚ) :=
  if mask.length = arr.length then
    some (List.zipWith (fun a m => if m then v else a) arr mask)
  else none

/-- `np.place(arr, mask, v)` where the mask argument is a 2-D boolean
array: numpy compares total sizes (and flattens); a size mismatch is a
ValueError. -/
def npPlace2 (arr : List ℚ) (mask : List (List Bool)) (v : ℚ) : Option (List ℚ) :=
  if (mask.map List.length).sum = arr.length then
    some (List.zipWith (fun a m => if m then v else a) arr mask.flatten)
  else none

/-- Embedding of the base `ESCSystem._concentration`: amounts, with
solid/aqueous entries replaced by 1. -/
def baseConc (amount : List ℚ) (states : List (List Bool)) : Option (List ℚ) :=
  let nhv := List.zipWith (fun a b => a || b) (states.getD 0 []) (states.getD 3 [])
  npPlace amount nhv 1

/-- Embedding of `ESCSystemGPCV._concentration`.  The base `run` passes
the full 4-row `states` matrix as this method's mask argument, so the
`np.place` call sees a mask of four times the array size. -/
def gpcvConc (volume : ℚ) (amount : List ℚ) (mask2d : List (List Bool)) :
    Option (List ℚ) :=
  match npPlace2 amount mask2d volume with
  | none => none
  | some a => some (a.map (fun x => x / volume))

/-- `np.float_power(b, e)` as a rational: defined when the exponent is
an integer and the power is finite; numpy's inf (zero base, negative
exponent) and nan / irrational results are modelled as `none`. -/
def fpow (b e : ℚ) : Option ℚ :=
  if e.den = 1 then
    if b = 0 ∧ e.num < 0 then none else some (b ^ e.num)
  else none

/-- Embedding of `_rate` (escvv/system.py):
`np.prod(np.float_power(substances, coefficient)) * rate_k`. -/
def rateOf (conc coeff : List ℚ) (k : ℚ) : Option ℚ :=
  ((List.zipWith fpow conc coeff).mapM id).map (fun l => l.prod * k)

/-- The step vector `(forward - backward) * rate` of `run`. -/
def stepVec (fwd bwd : List ℚ) (rate : ℚ) : List ℚ :=
  List.zipWith (fun f b => (f - b) * rate) fwd bwd

/-- The bounding ratio of `run`:
`(substances[consume] / step[consume]).min()` over the consumed species
(`step > 0`); numpy's `.min()` on an empty selection raises, modelled
as `none`. -/
def ratioBound (subst step : List ℚ) : Option ℚ :=
  match (List.zip subst step).filterMap
      (fun p => if 0 < p.2 then some (p.1 / p.2) else none) with
  | [] => none
  | x :: xs => some (xs.foldl min x)

/-- The test `((substances - step * m) < 0).any()` of `run`. -/
def wouldGoNeg (subst step : List ℚ) (m : ℚ) : Bool :=
  (List.zipWith (fun s t => s - t * m) subst step).any (fun x => decide (x < 0))

/-- Boolean-mask selection followed by `.all()`:
`mask[sel].all()` (empty selections give `true`, as in numpy). -/
def maskAll (mask sel : List Bool) : Bool :=
  (List.zip mask sel).all (fun p => !p.2 || p.1)

/-- The body of the inner `for` loop of `ESCSystem.run` for a single
equation: recompute concentrations, compare net rate against espilon,
bound the step, branch on the espilon-scaled exhaustion test, apply the
step and update the equilibrium flag (with the no-gas-side special case
that skips clearing it). -/
def eqStep (concF : List ℚ → Option (List ℚ)) (nhv : List Bool)
    (espilon delta : ℚ) (fwd bwd : List ℚ) (k : ℚ)
    (subst : List ℚ) (eqb : Bool) : Option (List ℚ × Bool) :=
  match concF subst with
  | none => none
  | some conc =>
    match rateOf conc fwd k, rateOf conc bwd 1 with
    | some rf, some rb =>
      let rate := rf - rb
      if espilon < |rate| then
        let step := stepVec fwd bwd rate
        match ratioBound subst step with
        | none => none
        | some r0 =>
          let ratio := if wouldGoNeg subst step espilon then r0 else r0 * delta
          let subst2 := List.zipWith (fun s t => s - t * ratio) subst step
          if (maskAll nhv (fwd.map (fun x => decide (0 < x))) ||
              maskAll nhv (bwd.map (fun x => decide (0 < x)))) &&
              wouldGoNeg subst2 step (espilon / 10) then
            some (subst2, eqb)
          else some (subst2, false)
      else some (subst, eqb)
    | _, _ => none

/-- One full pass of `run` over all equations, starting from
`equilibrium = True`. -/
def runPass (concF : List ℚ → Option (List ℚ)) (nhv : List Bool)
    (espilon delta : ℚ) (coeffs : List (List ℚ × List ℚ × ℚ))
    (subst : List ℚ) : Option (List ℚ × Bool) :=
  coeffs.foldlM
    (fun acc c => eqStep concF nhv espilon delta c.1 c.2.1 c.2.2 acc.1 acc.2)
    (subst, true)

/-- The annealing update at the end of each pass:
`if delta > espilon / 10: delta = delta * annealing`. -/
def annealUpdate (espilon annealing delta : ℚ) : ℚ :=
  if espilon / 10 < delta then delta * annealing else delta

/-- The `while not equilibrium` loop of `run`, with fuel: `none` models
a run that has not terminated within the fuel bound (the source loop is
unbounded).  Returns the final amounts and the final delta. -/
def runLoop (concF : List ℚ → Option (List ℚ)) (nhv : List Bool)
    (espilon annealing : ℚ) (coeffs : List (List ℚ × List ℚ × ℚ)) :
    Nat → List ℚ → ℚ → Option (List ℚ × ℚ)
  | 0, _, _ => none
  | fuel + 1, subst, delta =>
    match runPass concF nhv espilon delta coeffs subst with
    | none => none
    | some (subst2, eqb) =>
      let delta2 := annealUpdate espilon annealing delta
      if eqb then some (subst2, delta2)
      else runLoop concF nhv espilon annealing coeffs fuel subst2 delta2

/-- Half-even integer rounding (the rounding numpy applies). -/
def roundHalfEven (x : ℚ) : ℤ :=
  let f := ⌊x⌋
  let r := x - f
  if r < 1 / 2 then f
  else if 1 / 2 < r then f + 1
  else if f % 2 = 0 then f else f + 1

/-- `np.around(x, d)` modelled over the rationals. -/
def npAround (x : ℚ) (d : Nat) : ℚ :=
  (roundHalfEven (x * 10 ^ d) : ℚ) / 10 ^ d

/-- The final post-processing of one amount in `run`: round to
`PRECISION = 14` decimals, then clamp nonpositive results to 0. -/
def finalizeAmount (x : ℚ) : ℚ :=
  let r := npAround x 14
  if r ≤ 0 then 0 else r

/-- The index function `run` derives from `_substances_index` (total,
as every equation substance is registered by `add_equation`). -/
def sysIndexFun (s : ESCSystem) : String → Nat :=
  fun n => (idxIn s.names n).getD s.names.length

/-- The per-equation coefficient triples precomputed at the top of
`run`. -/
def ESCSystem.coeffsOf (s : ESCSystem) : List (List ℚ × List ℚ × ℚ) :=
  s.equations.map
    (fun e =>
      (e.forward (sysIndexFun s) s.names.length,
       e.backward (sysIndexFun s) s.names.length, e.equilibrium_K))

/-- The iteration of `ESCSystem.run` before the final rounding,
parametric in the concentration method (the subclass override). -/
def ESCSystem.runRaw (s : ESCSystem)
    (concFn : List ℚ → List (List Bool) → Option (List ℚ)) (fuel : Nat)
    (delta espilon annealing : ℚ) : Option (List ℚ × ℚ) :=
  runLoop (fun a => concFn a s.statesMask) s.nhvOf espilon annealing s.coeffsOf
    fuel s.amounts delta

/-- Embedding of `ESCSystem.run`: iterate to equilibrium, then round
every amount to 14 decimals and clamp nonpositive amounts to 0. -/
def ESCSystem.run (s : ESCSystem)
    (concFn : List ℚ → List (List Bool) → Option (List ℚ)) (fuel : Nat)
    (delta espilon annealing : ℚ) : Option ESCSystem :=
  match s.runRaw concFn fuel delta espilon annealing with
  | none => none
  | some mid => some { s with amounts := mid.1.map finalizeAmount }

/-- `run` of `ESCSystemGPCV`: the base loop with the constant-volume
concentration override. -/
def gpcvRun (s : ESCSystem) (volume : ℚ) (fuel : Nat)
    (delta espilon annealing : ℚ) : Option ESCSystem :=
  s.run (fun a st => gpcvConc volume a st) fuel delta espilon annealing

/-- A Python float outcome for the stored proportionality constant:
finite, infinite (either sign) or nan. -/
inductive PyFloat where
  | fin (q : ℚ)
  | inf
  | ninf
  | nan
deriving DecidableEq

/-- Float division as numpy performs it: division by zero yields a
signed infinity (or nan for 0/0) with only a warning. -/
def pyDiv (a b : ℚ) : PyFloat :=
  if b = 0 then
    if a = 0 then PyFloat.nan else if 0 < a then PyFloat.inf else PyFloat.ninf
  else PyFloat.fin (a / b)

/-- Embedding of `ESCSystemGPCP`: the base system plus the current
volume and the stored proportionality constant `_clapeyron_contant`. -/
structure ESCSystemGPCP where
  sys : ESCSystem
  volume : ℚ
  clapeyron : PyFloat
deriving DecidableEq

/-- Embedding of `ESCSystemGPCP._gas_amount` as called from the volume
setter: the setter passes the already-extracted 1-D gas mask, which the
method indexes again with `ESCState.GAS.index = 2` — an IndexError
(`none`) when the mask has fewer than three entries, otherwise a
boolean-scalar selection summing either every amount or none. -/
def gasAmountCall (amount : List ℚ) (mask : List Bool) : Option ℚ :=
  match mask[2]? with
  | none => none
  | some b => some (if b then amount.sum else 0)

/-- Embedding of the `ESCSystemGPCP.volume` setter: store the volume,
then recompute `_clapeyron_contant` as
`volume / self._gas_amount(amount, is_gas)` where
`is_gas = self._states()[ESCState.GAS.index]`. -/
def setVolume (g : ESCSystemGPCP) (v : ℚ) : Option ESCSystemGPCP :=
  let isGas := g.sys.statesMask.getD 2 []
  match gasAmountCall g.sys.amounts isGas with
  | none => none
  | some ga => some { g with volume := v, clapeyron := pyDiv v ga }

/-- Embedding of `ESCSystemGPCP.__init__`: build the base system,
reject AQUEOUS substances (the subclass `_set_state` raises), start the
constant at 0 and assign the volume through the setter. -/
def mkGPCP (volume : ℚ) (substances : List (String × ℚ))
    (equations : List ESCEquation) : Option ESCSystemGPCP :=
  if equations.any (fun e => e.substances.any (fun p => p.2.2 = ESCState.AQUEOUS)) then
    none
  else setVolume ⟨mkSystem substances equations, 0, PyFloat.fin 0⟩ volume

/-- Modelled from the spec: the total moles of GAS-phase substances,
the quantity the spec says the volume setter divides by. -/
def totalGasMoles (s : ESCSystem) : ℚ :=
  ((List.zip s.amounts s.states).filterMap
    (fun p => if p.2 = ESCState.GAS then some p.1 else none)).sum

/-- Modelled from the spec: the concentration rule the specification
states for the constant-volume system — no-volume species' amounts
replaced by the volume, then everything divided by the volume. -/
def specGPCVConcentration (volume : ℚ) (amount : List ℚ) (nhv : List Bool) :
    List ℚ :=
  (List.zipWith (fun a m => if m then volume else a) amount nhv).map
    (fun x => x / volume)

/-! ### Lemmas about the conditional-write fold behind `forward` and
`backward` -/

lemma condSet_cons (indexes : String → Nat) (P : Mat → Prop) [DecidablePred P]
    (v : Mat → ℚ) (init : List ℚ) (q : Mat) (rest : List Mat) :
    condSet indexes P v init (q :: rest) =
      condSet indexes P v (if P q then init.set (indexes q.1) (v q) else init) rest :=
  rfl

lemma condSet_append (indexes : String → Nat) (P : Mat → Prop) [DecidablePred P]
    (v : Mat → ℚ) (init : List ℚ) (l1 l2 : List Mat) :
    condSet indexes P v init (l1 ++ l2) =
      condSet indexes P v (condSet indexes P v init l1) l2 :=
  List.foldl_append _ _ _ _

lemma condSet_length (indexes : String → Nat) (P : Mat → Prop) [DecidablePred P]
    (v : Mat → ℚ) (subs : List Mat) (init : List ℚ) :
    (condSet indexes P v init subs).length = init.length := by
  induction subs generalizing init with
  | nil => rfl
  | cons q rest ih =>
    rw [condSet_cons, ih]
    by_cases hq : P q
    · rw [if_pos hq, List.length_set]
    · rw [if_neg hq]

lemma condSet_getElem?_untouched (indexes : String → Nat) (P : Mat → Prop)
    [DecidablePred P] (v : Mat → ℚ) (subs : List Mat) (init : List ℚ) (i : Nat)
    (h : ∀ p ∈ subs, P p → indexes p.1 ≠ i) :
    (condSet indexes P v init subs)[i]? = init[i]? := by
  induction subs generalizing init with
  | nil => rfl
  | cons q rest ih =>
    rw [condSet_cons, ih _ (fun p hp hP => h p (List.mem_cons_of_mem q hp) hP)]
    by_cases hq : P q
    · rw [if_pos hq, List.getElem?_set_ne (h q (List.mem_cons_self q rest) hq)]
    · rw [if_neg hq]

lemma condSet_getElem?_found (indexes : String → Nat) (P : Mat → Prop)
    [DecidablePred P] (v : Mat → ℚ) (init : List ℚ) (p : Mat) (l1 l2 : List Mat)
    (hi : indexes p.1 < init.length)
    (h1 : ∀ q ∈ l1, P q → indexes q.1 ≠ indexes p.1)
    (h2 : ∀ q ∈ l2, P q → indexes q.1 ≠ indexes p.1) :
    (condSet indexes P v init (l1 ++ p :: l2))[indexes p.1]? =
      if P p then some (v p) else init[indexes p.1]? := by
  rw [condSet_append, condSet_cons,
    condSet_getElem?_untouched indexes P v l2 _ _ h2]
  have hA : (condSet indexes P v init l1)[indexes p.1]? = init[indexes p.1]? :=
    condSet_getElem?_untouched indexes P v l1 init _ h1
  have hAlen : (condSet indexes P v init l1).length = init.length :=
    condSet_length indexes P v l1 init
  by_cases hp : P p
  · have hlt : indexes p.1 < (condSet indexes P v init l1).length := by
      rw [hAlen]; exact hi
    rw [if_pos hp, if_pos hp, List.getElem?_set_self hlt]
  · rw [if_neg hp, if_neg hp, hA]

lemma replicate_getElem? (n : Nat) (x : ℚ) (i : Nat) (h : i < n) :
    (List.replicate n x)[i]? = some x := by
  rw [List.getElem?_replicate, if_pos h]

/-- Keys of a list split around a member are distinct from the member's
key when the mapped keys are nodup. -/
lemma keys_ne_of_nodup_split (p : Mat) (l1 l2 : List Mat)
    (hnd : ((l1 ++ p :: l2).map (fun q => q.1)).Nodup) :
    ∀ q, (q ∈ l1 ∨ q ∈ l2) → q.1 ≠ p.1 := by
  rw [List.map_append, List.map_cons, List.nodup_append] at hnd
  obtain ⟨-, hnd2, hdisj⟩ := hnd
  rcases List.nodup_cons.1 hnd2 with ⟨hp2, -⟩
  intro q hq
  rcases hq with hq1 | hq2
  · intro hqp
    exact (hdisj (List.mem_map_of_mem (fun r => r.1) hq1))
      (by rw [hqp]; exact List.mem_cons_self p.1 (l2.map (fun r => r.1)))
  · intro hqp
    exact hp2 (hqp ▸ List.mem_map_of_mem (fun r => r.1) hq2)

/-! ### Claim C1 -/

/-- C1 (amended): every equation text accepted by the parser decomposes
into a left substance list, an EQUAL token, a right substance list and a
K clause, and the resulting substance dict is built from the left-side
materials with their parsed coefficient kept POSITIVE and the right-side
materials with their parsed coefficient NEGATED (the opposite of the
claimed convention). -/
theorem C1_parse_sign_convention (s : String) (ds : ℚ) (dst : ESCState)
    (e : ESCEquation) (h : parseRaw s ds dst = Except.ok e) :
    ∃ sub1 pos1 sub2 pos2 K,
      substancesP (tkOf s) ds dst 0 = Except.ok (sub1, pos1) ∧
      ((tkOf s).tokAt pos1).2 = TKState.EQUAL ∧
      substancesP (tkOf s) ds dst (pos1 + 1) = Except.ok (sub2, pos2) ∧
      kClauseP (tkOf s) pos2 = Except.ok K ∧
      e.substances = pyDict (sub1 ++ sub2.map (fun m => (m.1, -m.2.1, m.2.2))) ∧
      e.equilibrium_K = K := by
  unfold parseRaw equationP at h
  cases h1 : substancesP (tkOf s) ds dst 0 with
  | error m =>
    rw [h1] at h
    exact Except.noConfusion h
  | ok r1 =>
    obtain ⟨sub1, pos1⟩ := r1
    rw [h1] at h
    dsimp only at h
    by_cases heq : ((tkOf s).tokAt pos1).2 = TKState.EQUAL
    case neg =>
      rw [if_neg heq] at h
      exact Except.noConfusion h
    rw [if_pos heq] at h
    cases h2 : substancesP (tkOf s) ds dst (pos1 + 1) with
    | error m =>
      rw [h2] at h
      exact Except.noConfusion h
    | ok r2 =>
      obtain ⟨sub2, pos2⟩ := r2
      rw [h2] at h
      dsimp only at h
      cases h3 : kClauseP (tkOf s) pos2 with
      | error m =>
        rw [h3] at h
        exact Except.noConfusion h
      | ok K =>
        rw [h3] at h
        dsimp only at h
        injection h with h
        refine ⟨sub1, pos1, sub2, pos2, K, rfl, heq, h2, h3, ?_, ?_⟩
        · rw [← h]
          rfl
        · rw [← h]

/-- Witness for C1 at the accepted input A === B. -/
theorem C1_parse_sign_convention_witness :
    ∃ sub1 pos1 sub2 pos2 K,
      substancesP (tkOf ("A === B")) 1 ESCState.GAS 0 = Except.ok (sub1, pos1) ∧
      ((tkOf ("A === B")).tokAt pos1).2 = TKState.EQUAL ∧
      substancesP (tkOf ("A === B")) 1 ESCState.GAS (pos1 + 1) =
        Except.ok (sub2, pos2) ∧
      kClauseP (tkOf ("A === B")) pos2 = Except.ok K ∧
      (⟨[(("A"), 1, ESCState.GAS), (("B"), -1, ESCState.GAS)], 0⟩ :
        ESCEquation).substances =
        pyDict (sub1 ++ sub2.map (fun m => (m.1, -m.2.1, m.2.2))) ∧
      (⟨[(("A"), 1, ESCState.GAS), (("B"), -1, ESCState.GAS)], 0⟩ :
        ESCEquation).equilibrium_K = K :=
  C1_parse_sign_convention ("A === B") 1 ESCState.GAS
    ⟨[(("A"), 1, ESCState.GAS), (("B"), -1, ESCState.GAS)], 0⟩
    (by with_unfolding_all rfl)

/-- C1 counterexample: the accepted text A === B stores the left-hand
substance A with coefficient +1 (which is not negative) and the
right-hand substance B with coefficient -1 (which is not positive),
refuting the claimed left-negated / right-positive convention. -/
theorem C1_left_negated_false :
    parse_equation ("A === B") =
      Except.ok ⟨[(("A"), 1, ESCState.GAS), (("B"), -1, ESCState.GAS)], 0⟩ ∧
    ¬((1 : ℚ) < 0) ∧ ((-1 : ℚ) < 0) :=
  ⟨by with_unfolding_all rfl, by norm_num, by norm_num⟩

/-! ### Claim C8 -/

/-- C8 (amended): Scenario B parses to exactly AgNO3 (+1, SOLID),
Ag (-1, SOLID), NO2 (-1, GAS), O2 (-0.5, GAS), with equilibrium_K = 0
since the K clause is absent; signs follow the left-positive /
right-negated convention of the code. -/
theorem C8_scenario_b_parse :
    parse_equation ("AgNO3(s) === Ag(s) + NO2(g) + 0.5O2(g)") =
      Except.ok ⟨[(("AgNO3"), 1, ESCState.SOLID), (("Ag"), -1, ESCState.SOLID),
        (("NO2"), -1, ESCState.GAS), (("O2"), -(1/2), ESCState.GAS)], 0⟩ := by
  with_unfolding_all rfl

/-- C8 counterexample: the O2 entry of the parsed Scenario B equation
has coefficient -0.5, not the claimed 0.5. -/
theorem C8_o2_coefficient_false :
    (∃ e, parse_equation ("AgNO3(s) === Ag(s) + NO2(g) + 0.5O2(g)") =
        Except.ok e ∧
      e.substances.find? (fun p => decide (p.1 = ("O2"))) =
        some (("O2"), -(1/2), ESCState.GAS)) ∧
    (-(1/2) : ℚ) ≠ 1/2 :=
  ⟨⟨⟨[(("AgNO3"), 1, ESCState.SOLID), (("Ag"), -1, ESCState.SOLID),
      (("NO2"), -1, ESCState.GAS), (("O2"), -(1/2), ESCState.GAS)], 0⟩,
    by with_unfolding_all rfl, by with_unfolding_all rfl⟩, by norm_num⟩

/-! ### Claim C2 -/

lemma exists_ite_some {α : Type} (C : Prop) [Decidable C] (S : α) (b1 b2 : Bool) :
    ∃ b : Bool, (if C then some (S, b1) else some (S, b2)) = some (S, b) := by
  by_cases h : C
  · exact ⟨b1, if_pos h⟩
  · exact ⟨b2, if_neg h⟩

/-- C2 (amended): when an equation's net rate exceeds espilon in
magnitude, the per-equation update subtracts the step vector scaled by
the bounding ratio (min over consumed species of amount / step entry),
where the bounding ratio is multiplied by delta when subtracting the
step scaled by espilon would NOT drive any amount negative, and is used
directly otherwise — the reverse of the claimed branch assignment. -/
theorem C2_step_ratio_rule (concF : List ℚ → Option (List ℚ)) (nhv : List Bool)
    (espilon delta : ℚ) (fwd bwd : List ℚ) (k : ℚ) (subst : List ℚ) (eqb : Bool)
    (conc : List ℚ) (rf rb r0 : ℚ)
    (hc : concF subst = some conc)
    (hf : rateOf conc fwd k = some rf)
    (hb : rateOf conc bwd 1 = some rb)
    (hrate : espilon < |rf - rb|)
    (hr0 : ratioBound subst (stepVec fwd bwd (rf - rb)) = some r0) :
    ∃ b : Bool,
      eqStep concF nhv espilon delta fwd bwd k subst eqb =
        some (List.zipWith
          (fun s t => s - t *
            (if wouldGoNeg subst (stepVec fwd bwd (rf - rb)) espilon then r0
             else r0 * delta))
          subst (stepVec fwd bwd (rf - rb)), b) := by
  unfold eqStep
  rw [hc]
  simp only [hf, hb]
  rw [if_pos hrate, hr0]
  exact exists_ite_some _ _ _ _

/-- Witness for C2 at a concrete reaction step (single A =\= B style
equation, two gas substances, safe branch taken). -/
theorem C2_step_ratio_rule_witness :
    ∃ b : Bool,
      eqStep
        (fun a => baseConc a
          [[false, false], [false, false], [true, true], [false, false]])
        [false, false] (1/10) (1/2) [1, 0] [0, 1] 3 [4, 8] true =
        some (List.zipWith
          (fun s t => s - t *
            (if wouldGoNeg [4, 8] (stepVec [1, 0] [0, 1] (12 - 8)) (1/10) then 1
             else 1 * (1/2)))
          [4, 8] (stepVec [1, 0] [0, 1] (12 - 8)), b) :=
  C2_step_ratio_rule
    (fun a => baseConc a
      [[false, false], [false, false], [true, true], [false, false]])
    [false, false] (1/10) (1/2) [1, 0] [0, 1] 3 [4, 8] true [4, 8] 12 8 1
    (by with_unfolding_all rfl) (by with_unfolding_all rfl)
    (by with_unfolding_all rfl)
    (of_decide_eq_true (by with_unfolding_all rfl))
    (by with_unfolding_all rfl)

/-- C2 counterexample: at the concrete step above, subtracting the
step scaled by espilon keeps all amounts nonnegative, the bounding
ratio is 1, and the update uses ratio * delta (result [2, 10]) rather
than the bounding ratio directly (which would give [0, 12]), refuting
the claimed branch assignment. -/
theorem C2_ratio_branch_false :
    ratioBound [4, 8] (stepVec [1, 0] [0, 1] 4) = some 1 ∧
    wouldGoNeg [4, 8] (stepVec [1, 0] [0, 1] 4) (1/10) = false ∧
    eqStep
      (fun a => baseConc a
        [[false, false], [false, false], [true, true], [false, false]])
      [false, false] (1/10) (1/2) [1, 0] [0, 1] 3 [4, 8] true =
      some ([2, 10], false) ∧
    List.zipWith (fun s t => s - t * 1) [4, 8] (stepVec [1, 0] [0, 1] 4) =
      [0, 12] ∧
    ([2, 10] : List ℚ) ≠ [0, 12] :=
  ⟨by with_unfolding_all rfl, by with_unfolding_all rfl,
   by with_unfolding_all rfl, by with_unfolding_all rfl,
   of_decide_eq_true (by with_unfolding_all rfl)⟩

/-! ### Claim C7 -/

/-- C7: for every Equation and every injective name-to-index map covering
its substances with indices below the given count, `coefficient` equals
`forward` minus `backward` elementwise; `forward` carries the coefficient
where it is positive and 0 elsewhere, `backward` carries the negated
coefficient where it is negative and 0 elsewhere, and all three vectors
are 0 at every index not assigned to a substance of the equation. -/
theorem C7_coefficient_projection (e : ESCEquation) (indexes : String → Nat)
    (count : Nat)
    (hnd : (e.substances.map (fun p => p.1)).Nodup)
    (hinj : ∀ p ∈ e.substances, ∀ q ∈ e.substances,
      indexes p.1 = indexes q.1 → p.1 = q.1)
    (hlt : ∀ p ∈ e.substances, indexes p.1 < count) :
    (e.coefficient indexes count =
      List.zipWith (fun a b => a - b) (e.forward indexes count)
        (e.backward indexes count)) ∧
    (∀ i, i < count → (∀ p ∈ e.substances, indexes p.1 ≠ i) →
      (e.forward indexes count)[i]? = some 0 ∧
      (e.backward indexes count)[i]? = some 0 ∧
      (e.coefficient indexes count)[i]? = some 0) ∧
    (∀ p ∈ e.substances,
      (e.forward indexes count)[indexes p.1]? =
        some (if 0 < p.2.1 then p.2.1 else 0) ∧
      (e.backward indexes count)[indexes p.1]? =
        some (if p.2.1 < 0 then -p.2.1 else 0) ∧
      (e.coefficient indexes count)[indexes p.1]? =
        some ((if 0 < p.2.1 then p.2.1 else 0) -
          (if p.2.1 < 0 then -p.2.1 else 0))) := by
  refine ⟨rfl, ?_, ?_⟩
  · intro i hi hnone
    have hf : (e.forward indexes count)[i]? = some 0 := by
      unfold ESCEquation.forward
      rw [condSet_getElem?_untouched _ _ _ _ _ _ (fun p hp _ => hnone p hp)]
      exact replicate_getElem? count 0 i hi
    have hb : (e.backward indexes count)[i]? = some 0 := by
      unfold ESCEquation.backward
      rw [condSet_getElem?_untouched _ _ _ _ _ _ (fun p hp _ => hnone p hp)]
      exact replicate_getElem? count 0 i hi
    refine ⟨hf, hb, ?_⟩
    unfold ESCEquation.coefficient
    rw [List.getElem?_zipWith, hf, hb]
    norm_num
  · intro p hp
    obtain ⟨l1, l2, hsplit⟩ := List.append_of_mem hp
    have hkey := keys_ne_of_nodup_split p l1 l2 (hsplit ▸ hnd)
    have hmem : ∀ q, (q ∈ l1 ∨ q ∈ l2) → q ∈ e.substances := by
      intro q hq
      rw [hsplit]
      rcases hq with h | h
      · exact List.mem_append_left _ h
      · exact List.mem_append_right _ (List.mem_cons_of_mem _ h)
    have hne : ∀ q, (q ∈ l1 ∨ q ∈ l2) → indexes q.1 ≠ indexes p.1 := by
      intro q hq hqp
      exact hkey q hq (hinj q (hmem q hq) p hp hqp)
    have hip : indexes p.1 < count := hlt p hp
    have hrep : (List.replicate count (0 : ℚ))[indexes p.1]? = some 0 :=
      replicate_getElem? count 0 _ hip
    have hlen : indexes p.1 < (List.replicate count (0 : ℚ)).length := by
      rw [List.length_replicate]; exact hip
    have hf : (e.forward indexes count)[indexes p.1]? =
        some (if 0 < p.2.1 then p.2.1 else 0) := by
      unfold ESCEquation.forward
      rw [hsplit, condSet_getElem?_found _ _ _ _ p l1 l2 hlen
        (fun q hq _ => hne q (Or.inl hq)) (fun q hq _ => hne q (Or.inr hq)), hrep]
      by_cases h0 : 0 < p.2.1
      · rw [if_pos h0, if_pos h0]
      · rw [if_neg h0, if_neg h0]
    have hb : (e.backward indexes count)[indexes p.1]? =
        some (if p.2.1 < 0 then -p.2.1 else 0) := by
      unfold ESCEquation.backward
      rw [hsplit, condSet_getElem?_found _ _ _ _ p l1 l2 hlen
        (fun q hq _ => hne q (Or.inl hq)) (fun q hq _ => hne q (Or.inr hq)), hrep]
      by_cases h0 : p.2.1 < 0
      · rw [if_pos h0, if_pos h0]
      · rw [if_neg h0, if_neg h0]
    refine ⟨hf, hb, ?_⟩
    unfold ESCEquation.coefficient
    rw [List.getElem?_zipWith, hf, hb]

/-- Witness for C7 at the test-file equation and the index map of the
test system. -/
theorem C7_coefficient_projection_witness :
    ((⟨[(("A"), 2, ESCState.GAS), (("B"), -3, ESCState.GAS)], 2⟩ :
        ESCEquation).coefficient
      (fun n => if n = ("A") then 0 else 1) 2 =
      List.zipWith (fun a b => a - b)
        ((⟨[(("A"), 2, ESCState.GAS), (("B"), -3, ESCState.GAS)], 2⟩ :
          ESCEquation).forward (fun n => if n = ("A") then 0 else 1) 2)
        ((⟨[(("A"), 2, ESCState.GAS), (("B"), -3, ESCState.GAS)], 2⟩ :
          ESCEquation).backward (fun n => if n = ("A") then 0 else 1) 2)) ∧
    (∀ i, i < 2 →
      (∀ p ∈ (⟨[(("A"), 2, ESCState.GAS), (("B"), -3, ESCState.GAS)], 2⟩ :
        ESCEquation).substances, (fun n => if n = ("A") then 0 else 1) p.1 ≠ i) →
      ((⟨[(("A"), 2, ESCState.GAS), (("B"), -3, ESCState.GAS)], 2⟩ :
        ESCEquation).forward (fun n => if n = ("A") then 0 else 1) 2)[i]? = some 0 ∧
      ((⟨[(("A"), 2, ESCState.GAS), (("B"), -3, ESCState.GAS)], 2⟩ :
        ESCEquation).backward (fun n => if n = ("A") then 0 else 1) 2)[i]? = some 0 ∧
      ((⟨[(("A"), 2, ESCState.GAS), (("B"), -3, ESCState.GAS)], 2⟩ :
        ESCEquation).coefficient (fun n => if n = ("A") then 0 else 1) 2)[i]? =
        some 0) ∧
    (∀ p ∈ (⟨[(("A"), 2, ESCState.GAS), (("B"), -3, ESCState.GAS)], 2⟩ :
        ESCEquation).substances,
      ((⟨[(("A"), 2, ESCState.GAS), (("B"), -3, ESCState.GAS)], 2⟩ :
        ESCEquation).forward (fun n => if n = ("A") then 0 else 1) 2)[
          (fun n => if n = ("A") then 0 else 1) p.1]? =
        some (if 0 < p.2.1 then p.2.1 else 0) ∧
      ((⟨[(("A"), 2, ESCState.GAS), (("B"), -3, ESCState.GAS)], 2⟩ :
        ESCEquation).backward (fun n => if n = ("A") then 0 else 1) 2)[
          (fun n => if n = ("A") then 0 else 1) p.1]? =
        some (if p.2.1 < 0 then -p.2.1 else 0) ∧
      ((⟨[(("A"), 2, ESCState.GAS), (("B"), -3, ESCState.GAS)], 2⟩ :
        ESCEquation).coefficient (fun n => if n = ("A") then 0 else 1) 2)[
          (fun n => if n = ("A") then 0 else 1) p.1]? =
        some ((if 0 < p.2.1 then p.2.1 else 0) -
          (if p.2.1 < 0 then -p.2.1 else 0))) :=
  C7_coefficient_projection
    ⟨[(("A"), 2, ESCState.GAS), (("B"), -3, ESCState.GAS)], 2⟩
    (fun n => if n = ("A") then 0 else 1) 2
    (by with_unfolding_all decide)
    (by with_unfolding_all decide)
    (by with_unfolding_all decide)

/-! ### Lemmas about the substance index map and the state mutators -/

lemma idxIn_eq_none (l : List String) (n : String) : idxIn l n = none ↔ n ∉ l := by
  induction l with
  | nil => simp [idxIn]
  | cons x xs ih =>
    by_cases hx : x = n
    · simp [idxIn, hx]
    · simp [idxIn, hx, ih, Ne.symm hx]

lemma idxIn_lt_length (l : List String) (n : String) (i : Nat)
    (h : idxIn l n = some i) : i < l.length := by
  induction l generalizing i with
  | nil => exact Option.noConfusion h
  | cons x xs ih =>
    by_cases hx : x = n
    · rw [idxIn, if_pos hx] at h
      injection h with h
      rw [← h]
      exact Nat.succ_pos _
    · rw [idxIn, if_neg hx] at h
      cases hj : idxIn xs n with
      | none => rw [hj] at h; exact Option.noConfusion h
      | some j =>
        rw [hj] at h
        injection h with h
        rw [← h]
        exact Nat.succ_lt_succ (ih j hj)

lemma idxIn_getElem? (l : List String) (n : String) (i : Nat)
    (h : idxIn l n = some i) : l[i]? = some n := by
  induction l generalizing i with
  | nil => exact Option.noConfusion h
  | cons x xs ih =>
    by_cases hx : x = n
    · rw [idxIn, if_pos hx] at h
      injection h with h
      rw [← h, hx]
      exact List.getElem?_cons_zero
    · rw [idxIn, if_neg hx] at h
      cases hj : idxIn xs n with
      | none => rw [hj] at h; exact Option.noConfusion h
      | some j =>
        rw [hj] at h
        injection h with h
        rw [← h]
        show (x :: xs)[j + 1]? = some n
        rw [List.getElem?_cons_succ]
        exact ih j hj

lemma idxIn_ne_of_ne (l : List String) (a b : String) (i j : Nat)
    (ha : idxIn l a = some i) (hb : idxIn l b = some j) (hab : a ≠ b) :
    i ≠ j := by
  intro hij
  apply hab
  have h1 := idxIn_getElem? l a i ha
  have h2 := idxIn_getElem? l b j hb
  rw [hij, h2] at h1
  injection h1 with h1
  rw [h1]

lemma idxIn_append_left (l l2 : List String) (n : String) (i : Nat)
    (h : idxIn l n = some i) : idxIn (l ++ l2) n = some i := by
  induction l generalizing i with
  | nil => exact Option.noConfusion h
  | cons x xs ih =>
    by_cases hx : x = n
    · rw [idxIn, if_pos hx] at h
      rw [List.cons_append, idxIn, if_pos hx]
      exact h
    · rw [idxIn, if_neg hx] at h
      rw [List.cons_append, idxIn, if_neg hx]
      cases hj : idxIn xs n with
      | none => rw [hj] at h; exact Option.noConfusion h
      | some j =>
        rw [hj] at h
        rw [ih j hj]
        exact h

lemma idxIn_append_self (l : List String) (n : String) (h : n ∉ l) :
    idxIn (l ++ [n]) n = some l.length := by
  induction l with
  | nil => simp [idxIn]
  | cons x xs ih =>
    have hx : x ≠ n := fun hxn => h (hxn ▸ List.mem_cons_self x xs)
    rw [List.cons_append, idxIn, if_neg hx,
      ih (fun hmem => h (List.mem_cons_of_mem x hmem))]
    rfl

lemma idxIn_append_ne (l : List String) (m n : String) (h : m ≠ n) :
    idxIn (l ++ [n]) m = idxIn l m := by
  induction l with
  | nil => simp [idxIn, Ne.symm h]
  | cons x xs ih =>
    by_cases hx : x = m
    · rw [List.cons_append, idxIn, if_pos hx, idxIn, if_pos hx]
    · rw [List.cons_append, idxIn, if_neg hx, idxIn, if_neg hx, ih]

lemma WF_setItem (s : ESCSystem) (n : String) (c : ℚ) (hwf : s.WF) :
    (s.setItem n c).WF := by
  obtain ⟨h1, h2, h3⟩ := hwf
  unfold ESCSystem.setItem
  cases hx : idxIn s.names n with
  | some i => exact ⟨by rw [List.length_set]; exact h1, h2, h3⟩
  | none =>
    have hn : n ∉ s.names := (idxIn_eq_none _ _).1 hx
    refine ⟨by simp [h1], by simp [h2], ?_⟩
    rw [List.nodup_append]
    refine ⟨h3, List.nodup_singleton n, ?_⟩
    intro a ha hmem
    rw [List.mem_singleton] at hmem
    exact hn (hmem ▸ ha)

lemma WF_setState (s : ESCSystem) (n : String) (st : ESCState) (hwf : s.WF) :
    (s.setState n st).WF := by
  obtain ⟨h1, h2, h3⟩ := hwf
  unfold ESCSystem.setState
  cases idxIn s.names n with
  | some i => exact ⟨h1, by rw [List.length_set]; exact h2, h3⟩
  | none => exact ⟨h1, h2, h3⟩

lemma stateOf_setItem_fresh (s : ESCSystem) (n : String) (c : ℚ) (hwf : s.WF)
    (h : idxIn s.names n = none) :
    (s.setItem n c).stateOf n = some ESCState.GAS := by
  have hn : n ∉ s.names := (idxIn_eq_none _ _).1 h
  have hlen : s.states.length = s.names.length := hwf.2.1
  simp only [ESCSystem.setItem, h]
  simp only [ESCSystem.stateOf, idxIn_append_self s.names n hn]
  rw [← hlen, List.getElem?_concat_length]

lemma stateOf_setItem_ne (s : ESCSystem) (n m : String) (c : ℚ) (hwf : s.WF)
    (h : m ≠ n) : (s.setItem n c).stateOf m = s.stateOf m := by
  cases hx : idxIn s.names n with
  | some i => simp only [ESCSystem.setItem, hx, ESCSystem.stateOf]
  | none =>
    simp only [ESCSystem.setItem, hx, ESCSystem.stateOf,
      idxIn_append_ne s.names m n h]
    cases hy : idxIn s.names m with
    | none => rfl
    | some j =>
      simp only []
      have hj : j < s.states.length := by
        rw [hwf.2.1]
        exact idxIn_lt_length s.names m j hy
      rw [List.getElem?_append_left hj]

lemma stateOf_setItem_existing (s : ESCSystem) (n : String) (c : ℚ)
    (h : (idxIn s.names n).isSome) :
    ∀ m, (s.setItem n c).stateOf m = s.stateOf m := by
  intro m
  unfold ESCSystem.setItem
  cases hx : idxIn s.names n with
  | some i => rfl
  | none => rw [hx] at h; exact Bool.noConfusion h

lemma stateOf_setState_self (s : ESCSystem) (n : String) (st : ESCState)
    (hwf : s.WF) (i : Nat) (h : idxIn s.names n = some i) :
    (s.setState n st).stateOf n = some st := by
  simp only [ESCSystem.setState, h, ESCSystem.stateOf]
  have hi : i < s.states.length := by
    rw [hwf.2.1]
    exact idxIn_lt_length s.names n i h
  exact List.getElem?_set_self hi

lemma stateOf_setState_ne (s : ESCSystem) (n m : String) (st : ESCState)
    (h : m ≠ n) : (s.setState n st).stateOf m = s.stateOf m := by
  cases hx : idxIn s.names n with
  | none => simp only [ESCSystem.setState, hx]
  | some i =>
    simp only [ESCSystem.setState, hx, ESCSystem.stateOf]
    cases hy : idxIn s.names m with
    | none => rfl
    | some j =>
      simp only []
      have hij : i ≠ j := idxIn_ne_of_ne s.names n m i j hx hy (Ne.symm h)
      rw [List.getElem?_set_ne hij]

lemma addStep_WF (acc : ESCSystem) (p : Mat) (hwf : acc.WF) :
    (addStep acc p).WF := by
  unfold addStep
  by_cases hx : (idxIn acc.names p.1).isSome
  · rw [if_pos hx]
    exact WF_setState _ _ _ hwf
  · rw [if_neg hx]
    exact WF_setState _ _ _ (WF_setItem _ _ _ hwf)

lemma addStep_stateOf_self (acc : ESCSystem) (p : Mat) (hwf : acc.WF) :
    (addStep acc p).stateOf p.1 = some p.2.2 := by
  unfold addStep
  by_cases hx : (idxIn acc.names p.1).isSome
  · rw [if_pos hx]
    obtain ⟨i, hi⟩ := Option.isSome_iff_exists.1 hx
    exact stateOf_setState_self acc p.1 p.2.2 hwf i hi
  · rw [if_neg hx]
    have hnone : idxIn acc.names p.1 = none := Option.not_isSome_iff_eq_none.1 hx
    have hn : p.1 ∉ acc.names := (idxIn_eq_none _ _).1 hnone
    have hidx : idxIn (acc.setItem p.1 0).names p.1 = some acc.names.length := by
      unfold ESCSystem.setItem
      rw [hnone]
      exact idxIn_append_self acc.names p.1 hn
    exact stateOf_setState_self _ p.1 p.2.2 (WF_setItem _ _ _ hwf) _ hidx

lemma addStep_stateOf_ne (acc : ESCSystem) (p : Mat) (m : String) (hwf : acc.WF)
    (h : m ≠ p.1) : (addStep acc p).stateOf m = acc.stateOf m := by
  unfold addStep
  by_cases hx : (idxIn acc.names p.1).isSome
  · rw [if_pos hx]
    exact stateOf_setState_ne _ _ _ _ h
  · rw [if_neg hx]
    rw [stateOf_setState_ne _ _ _ _ h]
    exact stateOf_setItem_ne acc p.1 m 0 hwf h

lemma addFold_spec (l : List Mat) :
    ∀ s : ESCSystem, s.WF → (l.map (fun p => p.1)).Nodup →
      (l.foldl addStep s).WF ∧
      (∀ p ∈ l, (l.foldl addStep s).stateOf p.1 = some p.2.2) ∧
      (∀ m, (∀ p ∈ l, p.1 ≠ m) → (l.foldl addStep s).stateOf m = s.stateOf m) := by
  induction l with
  | nil => exact fun s hwf _ => ⟨hwf, fun p hp => absurd hp (List.not_mem_nil p),
      fun m _ => rfl⟩
  | cons p rest ih =>
    intro s hwf hnd
    have hwf1 : (addStep s p).WF := addStep_WF s p hwf
    obtain ⟨hp1, hnd1⟩ := List.nodup_cons.1 hnd
    obtain ⟨ihwf, ihself, ihother⟩ := ih (addStep s p) hwf1 hnd1
    rw [List.foldl_cons]
    refine ⟨ihwf, ?_, ?_⟩
    · intro q hq
      rcases List.mem_cons.1 hq with rfl | hq2
      · have hkeys : ∀ r ∈ rest, r.1 ≠ q.1 := by
          intro r hr hrq
          apply hp1
          have hmem : r.1 ∈ rest.map (fun x => x.1) :=
            List.mem_map_of_mem (fun x => x.1) hr
          rwa [hrq] at hmem
        rw [ihother q.1 hkeys]
        exact addStep_stateOf_self s q hwf
      · exact ihself q hq2
    · intro m hm
      rw [ihother m (fun r hr => hm r (List.mem_cons_of_mem p hr))]
      exact addStep_stateOf_ne s p m hwf
        (Ne.symm (hm p (List.mem_cons_self p rest)))

/-! ### Claim C10 -/

/-- C10: a substance introduced by direct item assignment (including the
assignments the constructor performs) is recorded with phase GAS;
item assignment never changes any already-tracked substance's phase,
and a phase changes exactly when `add_equation` later mentions the
substance, in which case the equation's phase overwrites the recorded
one (substances the equation does not mention keep their phase). -/
theorem C10_default_phase_gas (s : ESCSystem) (hwf : s.WF) :
    (∀ n c, idxIn s.names n = none →
      (s.setItem n c).stateOf n = some ESCState.GAS) ∧
    (∀ n c m, m ≠ n → (s.setItem n c).stateOf m = s.stateOf m) ∧
    (∀ n c, (idxIn s.names n).isSome →
      ∀ m, (s.setItem n c).stateOf m = s.stateOf m) ∧
    (∀ e : ESCEquation, (e.substances.map (fun p => p.1)).Nodup →
      (∀ p ∈ e.substances, (s.add_equation e).stateOf p.1 = some p.2.2) ∧
      (∀ m, (∀ p ∈ e.substances, p.1 ≠ m) →
        (s.add_equation e).stateOf m = s.stateOf m)) := by
  refine ⟨fun n c h => stateOf_setItem_fresh s n c hwf h,
    fun n c m h => stateOf_setItem_ne s n m c hwf h,
    fun n c h m => stateOf_setItem_existing s n c h m, ?_⟩
  intro e hnd
  obtain ⟨-, hself, hother⟩ :=
    addFold_spec e.substances { s with equations := s.equations ++ [e] } hwf hnd
  exact ⟨hself, fun m hm => hother m hm⟩

/-- Witness for C10: on an empty system, assigning an amount to a fresh
name records phase GAS. -/
theorem C10_default_phase_gas_witness :
    ((⟨[], [], [], []⟩ : ESCSystem).setItem ("X") 1).stateOf ("X") =
      some ESCState.GAS :=
  (C10_default_phase_gas ⟨[], [], [], []⟩ ⟨rfl, rfl, List.nodup_nil⟩).1 ("X") 1 rfl

/-! ### Claim C3 -/

/-- C3: whenever `run` returns (on the base system or, since the
concentration method is the only overridden part, on either gas-phase
subclass), the final amounts are the loop result rounded to 14 decimal
digits with every nonpositive amount clamped to exactly 0, so every
tracked amount is nonnegative. -/
theorem C3_run_nonneg (s : ESCSystem)
    (concFn : List ℚ → List (List Bool) → Option (List ℚ)) (fuel : Nat)
    (delta espilon annealing : ℚ) (s2 : ESCSystem)
    (h : s.run concFn fuel delta espilon annealing = some s2) :
    (∃ mid, s.runRaw concFn fuel delta espilon annealing = some mid ∧
      s2.amounts = mid.1.map finalizeAmount) ∧
    ∀ a ∈ s2.amounts, 0 ≤ a := by
  unfold ESCSystem.run at h
  cases hm : s.runRaw concFn fuel delta espilon annealing with
  | none =>
    rw [hm] at h
    exact Option.noConfusion h
  | some mid =>
    rw [hm] at h
    dsimp only at h
    injection h with h
    refine ⟨⟨mid, rfl, by rw [← h]⟩, ?_⟩
    intro a ha
    rw [← h] at ha
    obtain ⟨x, hx, hxa⟩ := List.mem_map.1 ha
    rw [← hxa]
    unfold finalizeAmount
    by_cases hle : npAround x 14 ≤ 0
    · rw [if_pos hle]
    · rw [if_neg hle]
      exact le_of_lt (lt_of_not_le hle)

/-- Witness for C3: a one-substance, no-equation system terminates in
one pass and the final amount 5 is nonnegative. -/
theorem C3_run_nonneg_witness :
    (∃ mid,
      (⟨[("A")], [5], [ESCState.GAS], []⟩ : ESCSystem).runRaw baseConc 1 (1/2)
        (1/1000) (9/10) = some mid ∧
      (⟨[("A")], [5], [ESCState.GAS], []⟩ : ESCSystem).amounts =
        mid.1.map finalizeAmount) ∧
    ∀ a ∈ (⟨[("A")], [5], [ESCState.GAS], []⟩ : ESCSystem).amounts, 0 ≤ a :=
  C3_run_nonneg ⟨[("A")], [5], [ESCState.GAS], []⟩ baseConc 1 (1/2) (1/1000)
    (9/10) ⟨[("A")], [5], [ESCState.GAS], []⟩ (by with_unfolding_all rfl)

/-! ### Claim C6 -/

/-- C6 (amended): after each full pass delta is multiplied by annealing
only when it still exceeds espilon / 10 (the guard is checked before the
multiplication, so delta may decay below espilon / 10 once); the
quantity delta never decays below is annealing * (espilon / 10): that
bound is preserved by every pass and hence holds for the final delta of
every terminating loop. -/
theorem C6_delta_anneal_floor (espilon annealing : ℚ) (hann : 0 < annealing) :
    (∀ delta : ℚ, annealing * (espilon / 10) ≤ delta →
      annealing * (espilon / 10) ≤ annealUpdate espilon annealing delta) ∧
    (∀ (concF : List ℚ → Option (List ℚ)) (nhv : List Bool)
      (coeffs : List (List ℚ × List ℚ × ℚ)) (fuel : Nat) (subst : List ℚ)
      (delta : ℚ) (out : List ℚ × ℚ),
      annealing * (espilon / 10) ≤ delta →
      runLoop concF nhv espilon annealing coeffs fuel subst delta = some out →
      annealing * (espilon / 10) ≤ out.2) := by
  have hstep : ∀ delta : ℚ, annealing * (espilon / 10) ≤ delta →
      annealing * (espilon / 10) ≤ annealUpdate espilon annealing delta := by
    intro delta hd
    unfold annealUpdate
    by_cases hlt : espilon / 10 < delta
    · rw [if_pos hlt]
      calc annealing * (espilon / 10) = espilon / 10 * annealing := mul_comm _ _
        _ ≤ delta * annealing :=
          mul_le_mul_of_nonneg_right (le_of_lt hlt) (le_of_lt hann)
    · rw [if_neg hlt]
      exact hd
  refine ⟨hstep, ?_⟩
  intro concF nhv coeffs fuel
  induction fuel with
  | zero => exact fun subst delta out hd h => Option.noConfusion h
  | succ n ih =>
    intro subst delta out hd h
    rw [runLoop] at h
    cases hp : runPass concF nhv espilon delta coeffs subst with
    | none =>
      rw [hp] at h
      exact Option.noConfusion h
    | some r =>
      obtain ⟨subst2, eqb⟩ := r
      rw [hp] at h
      dsimp only at h
      cases eqb with
      | true =>
        rw [if_pos rfl] at h
        injection h with h
        rw [← h]
        exact hstep delta hd
      | false =>
        rw [if_neg Bool.false_ne_true] at h
        exact ih subst2 (annealUpdate espilon annealing delta) out
          (hstep delta hd) h

/-- Witness for C6: the annealing floor for the default parameters. -/
theorem C6_delta_anneal_floor_witness :
    (9/10 : ℚ) * ((1/1000) / 10) ≤
      annealUpdate (1/1000) (9/10) (1/2) :=
  (C6_delta_anneal_floor (1/1000) (9/10) (by norm_num)).1 (1/2) (by norm_num)

/-- C6 counterexample: with espilon = 1/10 and annealing = 1/2, a run
that starts at delta = 11/1000 (which is above espilon / 10 = 1/100)
anneals it to 11/2000 during its single pass, which is BELOW
espilon / 10, so delta does decay below espilon / 10 during execution. -/
theorem C6_delta_below_floor :
    runLoop (fun a => some a) [] (1/10) (1/2) [] 1 [1] (11/1000) =
      some ([1], 11/2000) ∧
    (1/10 : ℚ) / 10 < 11/1000 ∧
    (11/2000 : ℚ) < (1/10) / 10 :=
  ⟨by with_unfolding_all rfl, by norm_num, by norm_num⟩

/-! ### Claim C9 -/

/-- C9 (amended): assigning the volume of a constant-pressure system
does NOT raise a configuration error when the gas-mole computation comes
out zero: whenever the system has a third tracked substance whose phase
is not GAS (so the mis-indexed gas mask reads false and the computed gas
amount is 0), the setter returns normally and silently stores an
INFINITE proportionality constant (positive volume divided by zero). -/
theorem C9_zero_gas_silent_inf (g : ESCSystemGPCP) (v : ℚ) (st : ESCState)
    (h2 : g.sys.states[2]? = some st) (hst : st ≠ ESCState.GAS) (hv : 0 < v) :
    setVolume g v = some { g with volume := v, clapeyron := PyFloat.inf } := by
  have hmask : g.sys.statesMask.getD 2 [] =
      g.sys.states.map (fun x => x.index == 2) := rfl
  unfold setVolume gasAmountCall
  rw [hmask]
  dsimp only
  rw [List.getElem?_map, h2]
  have hfalse : (st.index == 2) = false := by
    cases st
    · rfl
    · rfl
    · exact absurd rfl hst
    · rfl
  rw [Option.map_some', hfalse]
  dsimp only
  unfold pyDiv
  have h0 : (if false = true then g.sys.amounts.sum else 0 : ℚ) = 0 := rfl
  rw [h0, if_pos rfl, if_neg (ne_of_gt hv), if_pos hv]

/-- Witness for C9 at a three-solid system. -/
theorem C9_zero_gas_silent_inf_witness :
    setVolume ⟨⟨[("A"), ("B"), ("C")], [0, 0, 0],
      [ESCState.SOLID, ESCState.SOLID, ESCState.SOLID], []⟩, 1,
      PyFloat.fin 0⟩ 2 =
    some ⟨⟨[("A"), ("B"), ("C")], [0, 0, 0],
      [ESCState.SOLID, ESCState.SOLID, ESCState.SOLID], []⟩, 2,
      PyFloat.inf⟩ :=
  C9_zero_gas_silent_inf
    ⟨⟨[("A"), ("B"), ("C")], [0, 0, 0],
      [ESCState.SOLID, ESCState.SOLID, ESCState.SOLID], []⟩, 1, PyFloat.fin 0⟩
    2 ESCState.SOLID rfl (fun hx => ESCState.noConfusion hx) (by norm_num)

/-- C9 counterexample: constructing a constant-pressure system over a
pure-solid equation (total gas moles 0) succeeds — no error is raised —
and the stored proportionality constant is the silent infinity. -/
theorem C9_no_error_raised :
    mkGPCP 1 []
      [⟨[(("A"), 1, ESCState.SOLID), (("B"), -1, ESCState.SOLID),
        (("C"), -1, ESCState.SOLID)], 1/2⟩] =
      some ⟨⟨[("A"), ("B"), ("C")], [0, 0, 0],
        [ESCState.SOLID, ESCState.SOLID, ESCState.SOLID],
        [⟨[(("A"), 1, ESCState.SOLID), (("B"), -1, ESCState.SOLID),
          (("C"), -1, ESCState.SOLID)], 1/2⟩]⟩, 1, PyFloat.inf⟩ ∧
    totalGasMoles (mkSystem []
      [⟨[(("A"), 1, ESCState.SOLID), (("B"), -1, ESCState.SOLID),
        (("C"), -1, ESCState.SOLID)], 1/2⟩]) = 0 :=
  ⟨by with_unfolding_all rfl, by with_unfolding_all rfl⟩

/-! ### Claim C4 -/

/-- C4: the claim fails on the code — on a constant-pressure system with
two GAS substances of one mole each (total gas moles 2, so the claimed
constant would be volume / 2 = 0.5) the volume assignment performed by
the constructor raises an IndexError (modelled as `none`), because the
setter indexes the already-extracted 1-D gas mask a second time with
`GAS.index = 2`. -/
theorem C4_volume_setter_indexerror :
    mkGPCP 1 [(("A"), 1), (("B"), 1)] [] = none ∧
    totalGasMoles (mkSystem [(("A"), 1), (("B"), 1)] []) = 2 :=
  ⟨by with_unfolding_all rfl, by with_unfolding_all rfl⟩

/-! ### Claim C5 -/

/-- C5: the claim fails on the code — on the Scenario-A constant-volume
system (three substances, one equation) `run` crashes (modelled as
`none`): the base loop passes the full 4-row states matrix to the
subclass `_concentration`, whose `np.place` call then sees a mask of
size 12 against an amount array of size 3 and raises ValueError; the
claimed concentration vector (amounts with no-volume species replaced by
the volume, everything divided by the volume) is [2, 2, 0]. -/
theorem C5_gpcv_concentration_crash :
    gpcvRun (mkSystem [(("SO2"), 1), (("O2"), 1)]
      [⟨[(("SO2"), 2, ESCState.GAS), (("O2"), 1, ESCState.GAS),
        (("SO3"), -2, ESCState.GAS)], 9/10⟩]) (1/2) 3 (1/2) (1/1000) (9/10) =
      none ∧
    gpcvConc (1/2)
      (mkSystem [(("SO2"), 1), (("O2"), 1)]
        [⟨[(("SO2"), 2, ESCState.GAS), (("O2"), 1, ESCState.GAS),
          (("SO3"), -2, ESCState.GAS)], 9/10⟩]).amounts
      (mkSystem [(("SO2"), 1), (("O2"), 1)]
        [⟨[(("SO2"), 2, ESCState.GAS), (("O2"), 1, ESCState.GAS),
          (("SO3"), -2, ESCState.GAS)], 9/10⟩]).statesMask = none ∧
    specGPCVConcentration (1/2)
      (mkSystem [(("SO2"), 1), (("O2"), 1)]
        [⟨[(("SO2"), 2, ESCState.GAS), (("O2"), 1, ESCState.GAS),
          (("SO3"), -2, ESCState.GAS)], 9/10⟩]).amounts
      (mkSystem [(("SO2"), 1), (("O2"), 1)]
        [⟨[(("SO2"), 2, ESCState.GAS), (("O2"), 1, ESCState.GAS),
          (("SO3"), -2, ESCState.GAS)], 9/10⟩]).nhvOf = [2, 2, 0] :=
  ⟨by with_unfolding_all rfl, by with_unfolding_all rfl,
   by with_unfolding_all rfl⟩

end ESCVV
